import Mathlib

/-!
Verification development for the CODEOWNERS pull-request validator
(`check-codeowners.py`).  The Python source is shallowly embedded below:
strings are modelled as `List Char`, the GitHub API calls as
`Except`-valued inputs, `exit(1)` as an `Except.error 1` result, and the
regular expressions of `get_regex` as an executable Brzozowski-derivative
matcher over a small regex syntax that mirrors the source patterns with
one constructor per regex operator.  Definitions come first, theorems
afterwards.
-/

namespace Codeowners

/-! ## Basic string model -/

/-- Characters Python treats as whitespace in the ASCII range: these are the
characters excluded by the `\S` class of the source regexes and the ones
`str.isspace` recognises (the model restricts itself to ASCII input). -/
def pyWhitespaceChar (c : Char) : Bool :=
  c = ' ' || c = '\t' || c = '\n' || c = '\r' || c = Char.ofNat 11 || c = Char.ofNat 12

/-- ASCII case folding of one character, modelling Python `str.casefold`
(and `str.lower`) on the ASCII inputs the validator handles. -/
def pyLowerChar (c : Char) : Char :=
  if 'A' ≤ c && c ≤ 'Z' then Char.ofNat (c.toNat + 32) else c

/-- Python `str.split(sep)` for a one-character separator: keeps empty
chunks, and the split of the empty string is `[[]]`. -/
def splitOnChar (sep : Char) : List Char → List (List Char)
  | [] => [[]]
  | c :: cs =>
    let r := splitOnChar sep cs
    if c = sep then [] :: r
    else
      match r with
      | [] => [[c]]
      | t :: ts => (c :: t) :: ts

/-- Python `str.isspace`: non-empty and all characters whitespace. -/
def pyIsSpace (s : List Char) : Bool :=
  !s.isEmpty && s.all pyWhitespaceChar

/-! ## Regular expressions -/

/-- Regular-expression syntax: exactly the operators used by the source
patterns (character classes, concatenation, alternation, Kleene star). -/
inductive RE where
  | fail : RE
  | eps : RE
  | cls : (Char → Bool) → RE
  | cat : RE → RE → RE
  | alt : RE → RE → RE
  | star : RE → RE

/-- Does the regex accept the empty string? -/
def nullable : RE → Bool
  | .fail => false
  | .eps => true
  | .cls _ => false
  | .cat r s => nullable r && nullable s
  | .alt r s => nullable r || nullable s
  | .star _ => true

/-- Brzozowski derivative of a regex by one character. -/
def rderiv : RE → Char → RE
  | .fail, _ => .fail
  | .eps, _ => .fail
  | .cls p, c => if p c then .eps else .fail
  | .cat r s, c =>
    if nullable r then .alt (.cat (rderiv r c) s) (rderiv s c)
    else .cat (rderiv r c) s
  | .alt r s, c => .alt (rderiv r c) (rderiv s c)
  | .star r, c => .cat (rderiv r c) (.star r)

/-- Full-string matching (the source always uses `re.fullmatch`). -/
def rmatch (r : RE) (s : List Char) : Bool :=
  nullable (s.foldl rderiv r)

/-- Declarative semantics of the regex syntax. -/
inductive RMatch : RE → List Char → Prop where
  | eps : RMatch .eps []
  | cls {p : Char → Bool} {c : Char} : p c = true → RMatch (.cls p) [c]
  | cat {r s : RE} {u v : List Char} :
      RMatch r u → RMatch s v → RMatch (.cat r s) (u ++ v)
  | altl {r s : RE} {u : List Char} : RMatch r u → RMatch (.alt r s) u
  | altr {r s : RE} {u : List Char} : RMatch s u → RMatch (.alt r s) u
  | star_nil {r : RE} : RMatch (.star r) []
  | star_cat {r : RE} {u v : List Char} :
      RMatch r u → RMatch (.star r) v → RMatch (.star r) (u ++ v)

/-- Single-character regex (a literal character in the source pattern). -/
def chr (c : Char) : RE := .cls (fun x => x == c)

/-- `p+` on a character class, as the source patterns use it. -/
def plus (p : Char → Bool) : RE := .cat (.cls p) (.star (.cls p))

/-- A literal string in the source pattern (escaped literals like
`\@sailpoint\.com`). -/
def litL (l : List Char) : RE := l.foldr (fun c r => .cat (chr c) r) .eps

/-! ## The source regex tables (`get_regex`, lines 44-58) -/

/-- `[a-z]` -/
def lowerChar (c : Char) : Bool := 'a' ≤ c && c ≤ 'z'

/-- `[a-z\-]` -/
def lowerHyphen (c : Char) : Bool := lowerChar c || c = '-'

/-- `[a-z0-9]` -/
def lowerDigit (c : Char) : Bool := lowerChar c || ('0' ≤ c && c ≤ '9')

/-- `[a-z0-9\-]` -/
def lowerDigitHyphen (c : Char) : Bool := lowerDigit c || c = '-'

/-- `\S` -/
def nonSpace (c : Char) : Bool := !pyWhitespaceChar c

/-- `[^@]` -/
def nonAt (c : Char) : Bool := c != '@'

/-- `^\S*\.[a-z]+\@sailpoint\.com$` (first-element table, `email`). -/
def first_element_email : RE :=
  .cat (.star (.cls nonSpace))
    (.cat (chr '.') (.cat (plus lowerChar) (litL "@sailpoint.com".data)))

/-- `^\@\S*[a-z\-]+\/\S+$` (first-element table, `team`). -/
def first_element_team : RE :=
  .cat (chr '@')
    (.cat (.star (.cls nonSpace))
      (.cat (plus lowerHyphen) (.cat (chr '/') (plus nonSpace))))

/-- `^\S*[a-z0-9]+-[a-z0-9\-]+$` (first-element table, `collaborator`). -/
def first_element_collaborator : RE :=
  .cat (.star (.cls nonSpace))
    (.cat (plus lowerDigit) (.cat (chr '-') (plus lowerDigitHyphen)))

/-- `^[a-z]+\.[a-z]+\@sailpoint\.com$` (codeowner table, `email`). -/
def codeowner_email : RE :=
  .cat (plus lowerChar)
    (.cat (chr '.') (.cat (plus lowerChar) (litL "@sailpoint.com".data)))

/-- `^\@[a-z\-]+\/[^@]\S+$` (codeowner table, `team`). -/
def codeowner_team : RE :=
  .cat (chr '@')
    (.cat (plus lowerHyphen)
      (.cat (chr '/') (.cat (.cls nonAt) (plus nonSpace))))

/-- `^\@[a-z0-9]+-[a-z0-9\-]+$` (codeowner table, `collaborator`). -/
def codeowner_collaborator : RE :=
  .cat (chr '@')
    (.cat (plus lowerDigit) (.cat (chr '-') (plus lowerDigitHyphen)))

/-- The keys of the two regex dictionaries, in their insertion order. -/
inductive RegexKind where
  | email : RegexKind
  | team : RegexKind
  | collaborator : RegexKind
deriving DecidableEq

/-- The dictionary key strings, as interpolated into failure messages. -/
def RegexKind.str : RegexKind → String
  | .email => "email"
  | .team => "team"
  | .collaborator => "collaborator"

/-- `get_regex` (lines 44-58): selects the strict table for
`"codeowner_regex"` and the lenient first-element table otherwise. -/
def get_regex (regex_type : String) : List (RegexKind × RE) :=
  let first_element_regex : List (RegexKind × RE) :=
    [(.email, first_element_email), (.team, first_element_team),
     (.collaborator, first_element_collaborator)]
  let codeowner_regex : List (RegexKind × RE) :=
    [(.email, codeowner_email), (.team, codeowner_team),
     (.collaborator, codeowner_collaborator)]
  if regex_type = "codeowner_regex" then codeowner_regex else first_element_regex

/-- `check_codeowner_regex` (lines 60-64): first full match in dictionary
order wins; no match is `none` (the source returns `False`). -/
def check_codeowner_regex (codeowner : List Char) :
    List (RegexKind × RE) → Option RegexKind
  | [] => none
  | (k, r) :: rest =>
    if rmatch r codeowner then some k else check_codeowner_regex codeowner rest

/-! ## Line parsing (lines 28-42 and 66-102) -/

/-- `get_codeowner_lines_dict` (lines 28-32): split on newlines, drop the
empty strings, number the survivors from 1 (Python dicts preserve
insertion order, so the dict is modelled as an association list). -/
def get_codeowner_lines_dict (contents : List Char) : List (Nat × List Char) :=
  List.enumFrom 1 ((splitOnChar '\n' contents).filter (fun l => !l.isEmpty))

/-- `check_if_comment_or_header` (lines 34-35).  The source reads
`codeowner_line[0]`; callers only pass non-empty lines, so the default
for `[]` is irrelevant. -/
def check_if_comment_or_header (codeowner_line : List Char) : Bool :=
  codeowner_line.headD ' ' = '#' || codeowner_line.headD ' ' = '['

/-- `separate_line_codeowners` (lines 37-39): split on a space character
and drop empty chunks. -/
def separate_line_codeowners (codeowner_line : List Char) : List (List Char) :=
  (splitOnChar ' ' codeowner_line).filter (fun t => !t.isEmpty)

/-- `check_for_splat` (lines 41-42). -/
def check_for_splat (first_element : List Char) : Bool :=
  first_element = ['*']

/-- The loop body of `get_codeowners_only` (lines 74-101), with the loop
state (accumulated clean lines, `invalid_syntax_line`, `splat_line`)
passed explicitly.  A `break` in the source returns the state directly.
The source reads `codeowners_only[key][0]` on a line that is non-empty
and not whitespace-only, so the token list there is never empty and the
`headD []` defaults are never exercised. -/
def gcoLoop : List (Nat × List Char) → List (Nat × List (List Char)) → Nat → Bool →
    List (Nat × List (List Char)) × Nat × Bool
  | [], acc, invalid_syntax_line, splat_line => (acc, invalid_syntax_line, splat_line)
  | (key, value) :: rest, acc, _, splat_line =>
    if value.isEmpty || check_if_comment_or_header value || pyIsSpace value then
      gcoLoop rest acc 0 splat_line
    else
      let toks := separate_line_codeowners value
      let splat_line :=
        if !splat_line then check_for_splat (toks.headD []) else splat_line
      if toks.length < 2 then
        (acc ++ [(key, toks)], key, splat_line)
      else
        match check_codeowner_regex (toks.headD []) (get_regex "first_element_regex") with
        | none => gcoLoop rest (acc ++ [(key, toks.drop 1)]) 0 splat_line
        | some _ => (acc ++ [(key, toks)], key, splat_line)

/-- `get_codeowners_only` (lines 66-102).  The branch name argument is
only used for logging in the source and is dropped here.
`invalid_syntax_line` starts at 0 (= Python falsy); the source leaves it
unassigned before the first iteration, but `main` only calls this on a
non-empty dict. -/
def get_codeowners_only (codeowners_content : List (Nat × List Char)) :
    List (Nat × List (List Char)) × Nat × Bool :=
  gcoLoop codeowners_content [] 0 false

/-! ## Teams (lines 104-152) -/

/-- A GitHub team as the validator reads it: slug, permission on the
repository, member logins, and child teams.  Member lists are embedded
directly; the `get_team_members` API wrapper is modelled separately. -/
inductive Team where
  | mk : List Char → String → List (List Char) → List Team → Team

def Team.slug : Team → List Char
  | .mk s _ _ _ => s

def Team.permission : Team → String
  | .mk _ p _ _ => p

def Team.members : Team → List (List Char)
  | .mk _ _ m _ => m

def Team.children : Team → List Team
  | .mk _ _ _ c => c

mutual

def Team.size : Team → Nat
  | .mk _ _ _ cs => 1 + sizeTL cs

def sizeTL : List Team → Nat
  | [] => 0
  | t :: ts => Team.size t + sizeTL ts

end

/-- The worklist loop of `get_valid_repo_teams` (lines 124-126): Python
extends `repo_teams` while iterating over it, so children of appended
teams are processed as well (descendants at every depth are collected).
Each step removes one team from the front and enqueues its children, so
the summed tree size decreases by exactly one per step; the fuel is set
to that sum by the caller, making the recursion structural and leaving
the loop semantics unchanged. -/
def extendTeams : Nat → List Team → List Team
  | _, [] => []
  | 0, rest => rest
  | fuel + 1, t :: rest => t :: extendTeams fuel (rest ++ t.children)

/-- The permission filter of line 123. -/
def validPermission (t : Team) : Bool :=
  t.permission ≠ "pull" && t.permission ≠ "triage"

/-- `get_valid_repo_teams` (lines 116-130), given the repository's team
list: teams whose permission is neither `pull` nor `triage`, then every
descendant of those teams in worklist (breadth-first) order. -/
def get_valid_repo_teams (teams : List Team) : List Team :=
  let repo_teams := teams.filter validPermission
  extendTeams (sizeTL repo_teams) repo_teams

/-- Reachability in the team forest: `TeamReach r t` holds when `t` is
`r` itself or a descendant of `r` through `children` links. -/
inductive TeamReach : Team → Team → Prop where
  | refl (t : Team) : TeamReach t t
  | child {t c x : Team} : c ∈ Team.children t → TeamReach c x → TeamReach t x

/-- A comparison definition following the spec text word for word ("team
exists among the repository teams with non-read-only permission (direct
or nested one level)"): the filtered direct teams plus their immediate
children only.  Used solely to compare the spec reading against
`get_valid_repo_teams`. -/
def spec_one_level_teams (teams : List Team) : List Team :=
  let direct := teams.filter validPermission
  direct ++ (direct.map Team.children).flatten

/-! ## Failure messages (the f-strings of the source, one def each) -/

/-- Python `repr` of a list of strings, as interpolated by the
contractors failure message (`f'... {contractor_members}.'`). -/
def pyStrListRepr (l : List (List Char)) : String :=
  let sq : String := String.mk [Char.ofNat 39]
  let rec join : List String → String
    | [] => ""
    | [x] => x
    | x :: xs => x ++ ", " ++ join xs
  "[" ++ join (l.map (fun m => sq ++ String.mk m ++ sq)) ++ "]"

/-- Line 188. -/
def invalid_org_message (line : Nat) (codeowner_org : List Char) : String :=
  "Line " ++ toString line ++ ": Invalid Org in CODEOWNERS File. - \"" ++
    String.mk codeowner_org ++ "\""

/-- Line 196. -/
def too_many_members_message (line : Nat) (team : List Char) (count : Nat) : String :=
  "Line " ++ toString line ++ ": Too many members in codeowners team: " ++
    String.mk team ++ ", members: " ++ toString count ++ ". Must be <= 50."

/-- Line 200. -/
def contractors_message (line : Nat) (contractor_members : List (List Char)) : String :=
  "Line " ++ toString line ++
    ": Contractors Not Allowed to be in CODEOWNER file team or be the CODEOWNER team itself - Contractors: " ++
    pyStrListRepr contractor_members ++ "."

/-- Line 202 (source spelling preserved). -/
def team_not_exist_message (line : Nat) (org_login team : List Char) : String :=
  "Line " ++ toString line ++
    ": Codeowner in CODEOWNERS File does not have Repository Write Permissisons, is a contractors team, or does not exist in the " ++
    String.mk org_login ++ " Org - \"team: " ++ String.mk team ++ "\"."

/-- Line 210. -/
def member_invalid_message (line : Nat) (regex_result : RegexKind) (shown : List Char) : String :=
  "Line " ++ toString line ++
    ": Codeowner in CODEOWNERS File does not have Repository Write Permissions or is/has an Unallowed Contractor. Please use username for automation accounts. - \"" ++
    regex_result.str ++ ": " ++ String.mk shown ++ "\"."

/-- Line 327. -/
def owner_syntax_message (line : Nat) (codeowner : List Char) : String :=
  "Line " ++ toString line ++
    ": Codeowner Syntax or Spelling Incorrect in CODEOWNERS File. - \"" ++
    String.mk codeowner ++ "\""

/-- Line 308. -/
def line_syntax_message (line : Nat) (text : List Char) : String :=
  "Line " ++ toString line ++
    ": Line Syntax/Spelling Invalid or No Codeowners Found. - \"" ++
    String.mk text ++ "\""

/-- Line 293. -/
def empty_file_message : String := "CODEOWNERS File is Empty."

/-- Line 301. -/
def splat_required_message : String := "CODEOWNERS File Requires 1 Line starting with \"*\"."

/-- Line 349. -/
def valid_owners_message : String := "Codeowners in CODEOWNERS File are Valid."

/-- Line 274. -/
def not_in_pr_message : String := "CODEOWNERS File not found in PR."

/-- Line 279. -/
def not_exist_message : String := "CODEOWNERS File does not Exist."

/-! ## Owner validation (lines 132-211) -/

/-- `get_org_members` (lines 132-139), applied to an already-fetched
member-login list: every login is casefolded. -/
def org_members_casefold (members : List (List Char)) : List (List Char) :=
  members.map (List.map pyLowerChar)

/-- `compare_team_members` (lines 150-152). -/
def compare_team_members (team_members contractors_team_members : List (List Char)) :
    List (List Char) :=
  team_members.filter (fun member => decide (member ∈ contractors_team_members))

/-- The member loop of `get_username_from_email` (lines 161-176).  Lines
170-172 of the source iterate over the name components rebinding the
loop variable to a digit-stripped copy; the list itself is never
modified, so that loop has no effect and no counterpart here. -/
def guLoop (email_name : List (List Char)) : List (List Char) → Option (List Char)
  | [] => none
  | member :: rest =>
    let member_name := (splitOnChar '-' member).map (List.map pyLowerChar)
    let member_name := member_name.dropLast
    if member_name.isEmpty || member_name.length < 2 then
      guLoop email_name rest
    else if email_name.headD [] = member_name.headD []
        && email_name.getLastD [] = member_name.getLastD [] then
      some ('@' :: member)
    else
      guLoop email_name rest

/-- `get_username_from_email` (lines 154-176). -/
def get_username_from_email (email : List Char) (org_members : List (List Char)) :
    Option (List Char) :=
  let email_array := splitOnChar '@' email
  let email_name := (splitOnChar '.' (email_array.headD [])).map (List.map pyLowerChar)
  guLoop email_name org_members

/-- `separate_into_org_team` (lines 178-181).  The source indexes `[1]`,
which only callers passing a token containing `/` reach (the team regex
guarantees one); the default covers the impossible case. -/
def separate_into_org_team (codeowner : List Char) : List Char × List Char :=
  let codeowner_team_org := splitOnChar '/' codeowner
  (codeowner_team_org.headD [], (codeowner_team_org.drop 1).headD [])

/-- `validate_team_codeowner` (lines 183-203).  `repo_teams` is the
output of `get_valid_repo_teams`; the team-member fetch inside is
modelled by the embedded `Team.members` field. -/
def validate_team_codeowner (org_login : List Char) (line : Nat) (codeowner : List Char)
    (repo_teams : List Team) (contractors_team : Option Team)
    (contractor_members : List (List Char)) : String :=
  let codeowner_org := (separate_into_org_team codeowner).1
  let codeowner := (separate_into_org_team codeowner).2
  if codeowner_org.drop 1 ≠ org_login then
    invalid_org_message line (codeowner_org.drop 1)
  else
    match repo_teams.find? (fun team => team.slug == codeowner) with
    | some codeowner_team =>
      let codeowner_team_members := codeowner_team.members
      if codeowner_team_members.length > 50 then
        too_many_members_message line codeowner codeowner_team_members.length
      else
        match contractors_team with
        | some ct =>
          if !(compare_team_members codeowner_team_members contractor_members).isEmpty
              || codeowner == ct.slug then
            contractors_message line contractor_members
          else ""
        | none => ""
    | none =>
      team_not_exist_message line org_login codeowner

/-- `validate_member_codeowner` (lines 205-211).  `codeowner` is `none`
when email resolution failed (Python `None`); `email` is empty except on
the email path. -/
def validate_member_codeowner (line : Nat) (codeowner : Option (List Char))
    (email : List Char) (regex_result : RegexKind)
    (org_members contractor_members : List (List Char)) : String :=
  let failed :=
    match codeowner with
    | none => true
    | some c => c.isEmpty || !(decide (c.drop 1 ∈ org_members))
        || decide (c.drop 1 ∈ contractor_members)
  if failed then
    let shown :=
      if !email.isEmpty then email
      else
        match codeowner with
        | some c => c
        | none => "None".data
    member_invalid_message line regex_result shown
  else ""

/-! ## The per-branch owner loop (lines 318-353) -/

/-- The data `main` fetches before the owner loop (lines 311-316). -/
structure OwnerEnv where
  org_login : List Char
  org_members : List (List Char)
  contractors_team : Option Team
  repo_teams : List Team
  contractor_members : List (List Char)

/-- The inner `for codeowner in value` loop (lines 321-345): the first
failing token yields its message (`break`); a line whose tokens all pass
yields `none` (the `for`/`else` arm). -/
def check_line_owners (env : OwnerEnv) (line : Nat) : List (List Char) → Option String
  | [] => none
  | codeowner :: rest =>
    let codeowner := codeowner.map pyLowerChar
    match check_codeowner_regex codeowner (get_regex "codeowner_regex") with
    | none => some (owner_syntax_message line codeowner)
    | some RegexKind.team =>
      let message := validate_team_codeowner env.org_login line codeowner
        env.repo_teams env.contractors_team env.contractor_members
      if message ≠ "" then some message else check_line_owners env line rest
    | some RegexKind.email =>
      let username := get_username_from_email codeowner env.org_members
      let message := validate_member_codeowner line username codeowner RegexKind.email
        env.org_members env.contractor_members
      if message ≠ "" then some message else check_line_owners env line rest
    | some RegexKind.collaborator =>
      let message := validate_member_codeowner line (some codeowner) [] RegexKind.collaborator
        env.org_members env.contractor_members
      if message ≠ "" then some message else check_line_owners env line rest

/-- The outer `for line, value` loop (lines 319-353), threading the
branch's `(validSyntax, message)` state: a fully valid line overwrites
the state with `(true, valid message)` and continues; the first invalid
line stops the loop with `(false, its message)`. -/
def check_lines (env : OwnerEnv) : List (Nat × List (List Char)) →
    Bool × String → Bool × String
  | [], st => st
  | (line, value) :: rest, _ =>
    match check_line_owners env line value with
    | none => check_lines env rest (true, valid_owners_message)
    | some message => (false, message)

/-! ## Branch results and the decision combiner (lines 213-249) -/

/-- The per-branch result dict of `main` (lines 266-267).  `exists_` and
`validSyntax` model the dict entries named `exists` and `valid_syntax`
in the source (both renamed here for Lean).  The base dict has no `skip`
key in the source; `skip` is `false` for it here and `block_pr` never
reads it for the base branch. -/
structure BranchState where
  name : String
  exists_ : Bool
  validSyntax : Bool
  skip : Bool
  message : String
deriving DecidableEq

def fail_message : String :=
  "Invalid or Missing CODEOWNERS File in both Base and Compare Branches. Cannot Merge."

def base_fail_message : String :=
  "Invalid or Missing CODEOWNERS File in Base Branch. Cannot Merge. Add valid CODEOWNERS File to PR."

def base_success_message : String :=
  "Valid CODEOWNERS File in Base Branch. Will be merged."

def cannot_merge_message : String :=
  "Cannot Merge Invalid Compare Branch CODEOWNERS to Base Branch."

def valid_merge_message : String :=
  "Valid Compare Branch CODEOWNERS will be Merged to Base Branch."

/-- `determine_branch_fail` (lines 213-221): the `base_success` and
`compare_success` entries it adds to the two dicts. -/
def determine_branch_fail (base_branch compare_branch : BranchState) : Bool × Bool :=
  let base_success := if !base_branch.exists_ || !base_branch.validSyntax then false else true
  let compare_success :=
    if !compare_branch.exists_ || !compare_branch.validSyntax then false else true
  (base_success, compare_success)

/-- `block_pr` (lines 223-249): the final decision message and the exit
status.  The two success flags are the dict entries added by
`determine_branch_fail`; the per-branch log prints are I/O and are not
part of the returned outcome. -/
def block_pr (_base_branch compare_branch : BranchState)
    (base_success compare_success : Bool) : String × Nat :=
  if !base_success && compare_branch.skip then (base_fail_message, 1)
  else if base_success && compare_branch.skip then (base_success_message, 0)
  else if !base_success && !compare_success then (fail_message, 1)
  else if base_success && !compare_success then (cannot_merge_message, 1)
  else (valid_merge_message, 0)

/-- Lines 356-357 of `main`: `determine_branch_fail` followed by
`block_pr` — the decision combiner applied to the two branch results. -/
def combine_decision (base_branch compare_branch : BranchState) : String × Nat :=
  let s := determine_branch_fail base_branch compare_branch
  block_pr base_branch compare_branch s.1 s.2

/-! ## API wrappers and the whole run (lines 9-26, 104-148, 252-357).
A GitHub API read is modelled as an `Except GithubError` input; the
source's `exit(1)` on an unexpected exception becomes `Except.error 1`,
so an errored run produces no branch results and no decision. -/

/-- The only attribute of `GithubException` the source inspects. -/
structure GithubError where
  status : Nat
deriving DecidableEq

/-- `check_codeowners_file_pr` (lines 9-17): is `CODEOWNERS` among the
filenames of the PR's commits? -/
def check_codeowners_file_pr (pr_files : Except GithubError (List (List Char))) :
    Except Nat Bool :=
  match pr_files with
  | .error _ => .error 1
  | .ok files => .ok (decide ("CODEOWNERS".data ∈ files))

/-- `check_for_codeowners_file_branch` (lines 19-26): is `CODEOWNERS`
among the repository root entries? -/
def check_for_codeowners_file_branch (root_names : Except GithubError (List (List Char))) :
    Except Nat Bool :=
  match root_names with
  | .error _ => .error 1
  | .ok names => .ok (decide ("CODEOWNERS".data ∈ names))

/-- `get_org_team` (lines 104-114): a 404 means "team not found" and the
run continues with `None`; any other API error exits with status 1. -/
def get_org_team (fetch : Except GithubError Team) : Except Nat (Option Team) :=
  match fetch with
  | .ok team => .ok (some team)
  | .error e => if e.status = 404 then .ok none else .error 1

/-- `get_org_members` (lines 132-139): casefolds every login; an API
error exits with status 1. -/
def get_org_members (fetch : Except GithubError (List (List Char))) :
    Except Nat (List (List Char)) :=
  match fetch with
  | .error _ => .error 1
  | .ok members => .ok (org_members_casefold members)

/-- `get_team_members` (lines 141-148): an API error exits with status 1. -/
def get_team_members (fetch : Except GithubError (List (List Char))) :
    Except Nat (List (List Char)) :=
  match fetch with
  | .error _ => .error 1
  | .ok team_members => .ok team_members

/-- The fetch half of `get_valid_repo_teams` (lines 116-130): an API
error while listing teams or child teams exits with status 1; on
success the pure collection `get_valid_repo_teams` applies. -/
def get_valid_repo_teams_api (fetch : Except GithubError (List Team)) :
    Except Nat (List Team) :=
  match fetch with
  | .error _ => .error 1
  | .ok teams => .ok (get_valid_repo_teams teams)

/-- One run's external inputs: environment names and the result of every
API read the validator performs. -/
structure World where
  base_ref : String
  head_ref : String
  org_login : List Char
  pr_files : Except GithubError (List (List Char))
  root_names : Except GithubError (List (List Char))
  base_content : Except GithubError (List Char)
  compare_content : Except GithubError (List Char)
  org_members : Except GithubError (List (List Char))
  contractors_fetch : Except GithubError Team
  repo_teams_fetch : Except GithubError (List Team)

/-- Lines 283-353 of `main`: everything after a branch's file is known
to exist — fetch the content, parse it, run the splat and syntax checks,
then (only if those pass) fetch the org data and run the owner loop.
Returns the branch's `(validSyntax, message)`.  The contractors-team
member listing is modelled by the embedded `Team.members` field (its
failure path is the `get_team_members` wrapper). -/
def run_branch_tail (w : World) (content_fetch : Except GithubError (List Char)) :
    Except Nat (Bool × String) := do
  match content_fetch with
  | .error _ => .error 1
  | .ok codeowners_content =>
    let codeowners_lines_dict := get_codeowner_lines_dict codeowners_content
    if codeowners_lines_dict.isEmpty then
      .ok (false, empty_file_message)
    else
      let parsed := get_codeowners_only codeowners_lines_dict
      let codeowners_only_dict := parsed.1
      let invalid_syntax_line := parsed.2.1
      let splat_line := parsed.2.2
      if !splat_line then
        .ok (false, splat_required_message)
      else if codeowners_only_dict.isEmpty || invalid_syntax_line ≠ 0 then
        let line := if invalid_syntax_line ≠ 0 then invalid_syntax_line else 1
        .ok (false, line_syntax_message line ((codeowners_lines_dict.lookup line).getD []))
      else do
        let org_members ← get_org_members w.org_members
        let contractors_team ← get_org_team w.contractors_fetch
        let repo_teams ← get_valid_repo_teams_api w.repo_teams_fetch
        let contractor_members ←
          match contractors_team with
          | some ct => get_team_members (.ok ct.members)
          | none => .ok ([] : List (List Char))
        let env : OwnerEnv :=
          { org_login := w.org_login, org_members := org_members,
            contractors_team := contractors_team, repo_teams := repo_teams,
            contractor_members := contractor_members }
        .ok (check_lines env codeowners_only_dict (false, ""))

/-- The `base` iteration of the branch loop (lines 270-353). -/
def run_branch_base (w : World) : Except Nat BranchState := do
  let found ← check_for_codeowners_file_branch w.root_names
  if !found then
    .ok { name := w.base_ref, exists_ := false, validSyntax := false, skip := false,
          message := not_exist_message }
  else do
    let r ← run_branch_tail w w.base_content
    .ok { name := w.base_ref, exists_ := true, validSyntax := r.1, skip := false,
          message := r.2 }

/-- The `compare` iteration of the branch loop (lines 270-353). -/
def run_branch_compare (w : World) : Except Nat BranchState := do
  let in_pr ← check_codeowners_file_pr w.pr_files
  if !in_pr then
    .ok { name := w.head_ref, exists_ := false, validSyntax := false, skip := true,
          message := not_in_pr_message }
  else do
    let r ← run_branch_tail w w.compare_content
    .ok { name := w.head_ref, exists_ := true, validSyntax := r.1, skip := false,
          message := r.2 }

/-- `main` (lines 252-357): validate base then compare, combine with
`determine_branch_fail` and `block_pr`.  On success the result carries
both branch states and the final decision message with its exit code; an
API failure is `Except.error 1` — the run stops with no decision. -/
def run_validator (w : World) :
    Except Nat (BranchState × BranchState × String × Nat) := do
  let base_branch ← run_branch_base w
  let compare_branch ← run_branch_compare w
  let d := combine_decision base_branch compare_branch
  .ok (base_branch, compare_branch, d.1, d.2)

deriving instance DecidableEq for Except

/-! ## Concrete inputs used by counterexamples and witnesses -/

/-- A run where the base branch has no CODEOWNERS file while the pull
request adds one whose single line is `* @John-Doe`, with `John-Doe` an
organization member and no contractors team. -/
def pr_adds_valid_world : World :=
  { base_ref := "main", head_ref := "feat", org_login := "sailpoint".data,
    pr_files := .ok ["CODEOWNERS".data],
    root_names := .ok ["README.md".data],
    base_content := .error ⟨404⟩,
    compare_content := .ok "* @John-Doe".data,
    org_members := .ok ["John-Doe".data],
    contractors_fetch := .error ⟨404⟩,
    repo_teams_fetch := .ok [] }

/-- A team forest with a grandchild: `a` (push permission) has child `b`,
which has child `g`. -/
def team_grandchild : Team := .mk "g".data "pull" ["x".data] []

def team_child : Team := .mk "b".data "pull" [] [team_grandchild]

def team_root : Team := .mk "a".data "push" [] [team_child]

/-- The content split contains at least one non-empty line (so
`get_codeowner_lines_dict` is non-empty). -/
def has_nonempty_line (content : List Char) : Prop :=
  ∃ l ∈ splitOnChar '\n' content, l ≠ []

/-- No line of the content has `*` as its first whitespace-separated
token. -/
def no_splat_first_token (content : List Char) : Prop :=
  ∀ l ∈ splitOnChar '\n' content, (separate_line_codeowners l).headD [] ≠ ['*']

instance (content : List Char) : Decidable (has_nonempty_line content) := by
  unfold has_nonempty_line; infer_instance

instance (content : List Char) : Decidable (no_splat_first_token content) := by
  unfold no_splat_first_token; infer_instance

/-! # Theorems -/

/-! ## Regex engine correctness -/

/-- Inversion for concatenation matches. -/
theorem cat_inv {r s : RE} {w : List Char} (h : RMatch (.cat r s) w) :
    ∃ u v, w = u ++ v ∧ RMatch r u ∧ RMatch s v := by
  cases h with
  | cat hu hv => exact ⟨_, _, rfl, hu, hv⟩

/-- Inversion for alternation matches. -/
theorem alt_inv {r s : RE} {w : List Char} (h : RMatch (.alt r s) w) :
    RMatch r w ∨ RMatch s w := by
  cases h with
  | altl h => exact Or.inl h
  | altr h => exact Or.inr h

/-- Inversion for character-class matches. -/
theorem cls_inv {p : Char → Bool} {w : List Char} (h : RMatch (.cls p) w) :
    ∃ c, w = [c] ∧ p c = true := by
  cases h with
  | cls hc => exact ⟨_, rfl, hc⟩

theorem nullable_iff (r : RE) : nullable r = true ↔ RMatch r [] := by
  induction r with
  | fail =>
    constructor
    · intro h; simp [nullable] at h
    · intro h; cases h
  | eps =>
    constructor
    · intro _; exact .eps
    · intro _; rfl
  | cls p =>
    constructor
    · intro h; simp [nullable] at h
    · intro h; cases h
  | cat r s ihr ihs =>
    simp only [nullable, Bool.and_eq_true]
    constructor
    · rintro ⟨hr, hs⟩
      exact (List.nil_append ([] : List Char)) ▸ RMatch.cat (ihr.mp hr) (ihs.mp hs)
    · intro h
      obtain ⟨u, v, huv, hu, hv⟩ := cat_inv h
      rcases List.append_eq_nil.mp huv.symm with ⟨hu0, hv0⟩
      subst hu0; subst hv0
      exact ⟨ihr.mpr hu, ihs.mpr hv⟩
  | alt r s ihr ihs =>
    simp only [nullable, Bool.or_eq_true]
    constructor
    · rintro (hr | hs)
      · exact .altl (ihr.mp hr)
      · exact .altr (ihs.mp hs)
    · intro h
      rcases alt_inv h with h | h
      · exact Or.inl (ihr.mpr h)
      · exact Or.inr (ihs.mpr h)
  | star r _ =>
    constructor
    · intro _; exact .star_nil
    · intro _; rfl

/-- Inversion for star: a non-trivial match splits off a non-empty prefix. -/
theorem star_inv {r : RE} {w : List Char} (h : RMatch (.star r) w) :
    w = [] ∨ ∃ u v, w = u ++ v ∧ u ≠ [] ∧ RMatch r u ∧ RMatch (.star r) v := by
  suffices aux : ∀ e w, RMatch e w → ∀ r, e = RE.star r →
      w = [] ∨ ∃ u v, w = u ++ v ∧ u ≠ [] ∧ RMatch r u ∧ RMatch (.star r) v by
    exact aux _ _ h r rfl
  intro e w h
  induction h with
  | eps => intro r he; cases he
  | cls _ => intro r he; cases he
  | cat _ _ _ _ => intro r he; cases he
  | altl _ _ => intro r he; cases he
  | altr _ _ => intro r he; cases he
  | star_nil => intro r he; exact Or.inl rfl
  | star_cat hu hv ihu ihv =>
    intro r' he
    injection he with hr
    subst hr
    rename_i u v
    cases u with
    | nil => simpa using ihv _ rfl
    | cons c cs =>
      exact Or.inr ⟨c :: cs, v, rfl, by simp, hu, hv⟩

theorem rderiv_iff (r : RE) (c : Char) (s : List Char) :
    RMatch (rderiv r c) s ↔ RMatch r (c :: s) := by
  induction r generalizing s with
  | fail =>
    constructor
    · intro h; cases h
    · intro h; cases h
  | eps =>
    constructor
    · intro h; simp only [rderiv] at h; cases h
    · intro h; cases h
  | cls p =>
    simp only [rderiv]
    by_cases hp : p c = true
    · simp only [hp, if_true]
      constructor
      · intro h; cases h; exact .cls hp
      · intro h
        obtain ⟨c0, hc0, _⟩ := cls_inv h
        cases hc0
        exact .eps
    · simp only [hp, if_false]
      constructor
      · intro h; cases h
      · intro h
        obtain ⟨c0, hc0, hpc⟩ := cls_inv h
        cases hc0
        exact absurd hpc hp
  | cat r r' ihr ihr' =>
    simp only [rderiv]
    by_cases hn : nullable r = true
    · simp only [hn, if_true]
      constructor
      · intro h
        rcases alt_inv h with h | h
        · obtain ⟨u, v, huv, ha, hb⟩ := cat_inv h
          subst huv
          exact (List.cons_append c _ _) ▸ RMatch.cat ((ihr _).mp ha) hb
        · exact (List.nil_append (c :: s)) ▸
            RMatch.cat ((nullable_iff r).mp hn) ((ihr' _).mp h)
      · intro h
        obtain ⟨u, v, huv, ha, hb⟩ := cat_inv h
        cases u with
        | nil =>
          simp only [List.nil_append] at huv
          subst huv
          exact .altr ((ihr' _).mpr hb)
        | cons x xs =>
          simp only [List.cons_append, List.cons.injEq] at huv
          obtain ⟨hx, hxs⟩ := huv
          subst hx; subst hxs
          exact .altl (RMatch.cat ((ihr _).mpr ha) hb)
    · simp only [hn, if_false]
      constructor
      · intro h
        obtain ⟨u, v, huv, ha, hb⟩ := cat_inv h
        subst huv
        exact (List.cons_append c _ _) ▸ RMatch.cat ((ihr _).mp ha) hb
      · intro h
        obtain ⟨u, v, huv, ha, hb⟩ := cat_inv h
        cases u with
        | nil =>
          exact absurd ((nullable_iff r).mpr ha) (by simpa using hn)
        | cons x xs =>
          simp only [List.cons_append, List.cons.injEq] at huv
          obtain ⟨hx, hxs⟩ := huv
          subst hx; subst hxs
          exact RMatch.cat ((ihr _).mpr ha) hb
  | alt r r' ihr ihr' =>
    simp only [rderiv]
    constructor
    · intro h
      rcases alt_inv h with h | h
      · exact .altl ((ihr _).mp h)
      · exact .altr ((ihr' _).mp h)
    · intro h
      rcases alt_inv h with h | h
      · exact .altl ((ihr _).mpr h)
      · exact .altr ((ihr' _).mpr h)
  | star r ihr =>
    simp only [rderiv]
    constructor
    · intro h
      obtain ⟨u, v, huv, ha, hb⟩ := cat_inv h
      subst huv
      exact (List.cons_append c _ _) ▸ RMatch.star_cat ((ihr _).mp ha) hb
    · intro h
      rcases star_inv h with h0 | ⟨u, v, huv, hne, hu, hv⟩
      · cases h0
      · cases u with
        | nil => exact absurd rfl hne
        | cons x xs =>
          simp only [List.cons_append, List.cons.injEq] at huv
          obtain ⟨hx, hxs⟩ := huv
          subst hx; subst hxs
          exact RMatch.cat ((ihr _).mpr hu) hv

/-- The executable matcher agrees with the declarative semantics. -/
theorem rmatch_iff (r : RE) (s : List Char) : rmatch r s = true ↔ RMatch r s := by
  induction s generalizing r with
  | nil => exact nullable_iff r
  | cons c cs ih =>
    show nullable ((c :: cs).foldl rderiv r) = true ↔ _
    rw [List.foldl_cons]
    exact (ih (rderiv r c)).trans (rderiv_iff r c cs)

theorem star_cls_iff (p : Char → Bool) (w : List Char) :
    RMatch (.star (.cls p)) w ↔ ∀ c ∈ w, p c = true := by
  constructor
  · intro h
    suffices aux : ∀ e w, RMatch e w → e = RE.star (.cls p) → ∀ c ∈ w, p c = true by
      exact aux _ _ h rfl
    intro e w h
    induction h with
    | eps => intro he; cases he
    | cls _ => intro he; cases he
    | cat _ _ _ _ => intro he; cases he
    | altl _ _ => intro he; cases he
    | altr _ _ => intro he; cases he
    | star_nil => intro _ c hc; cases hc
    | star_cat hu hv ihu ihv =>
      intro he
      injection he with hr
      subst hr
      intro c hc
      obtain ⟨c0, hc0, hpc⟩ := cls_inv hu
      subst hc0
      rcases List.mem_append.mp hc with hc | hc
      · rcases List.mem_singleton.mp hc with rfl
        exact hpc
      · exact ihv rfl c hc
  · intro h
    induction w with
    | nil => exact .star_nil
    | cons c cs ih =>
      have : RMatch (.star (.cls p)) ([c] ++ cs) :=
        .star_cat (.cls (h c (by simp))) (ih (fun x hx => h x (by simp [hx])))
      simpa using this

theorem plus_iff (p : Char → Bool) (w : List Char) :
    RMatch (plus p) w ↔ w ≠ [] ∧ ∀ c ∈ w, p c = true := by
  constructor
  · intro h
    obtain ⟨u, v, huv, hu, hv⟩ := cat_inv h
    obtain ⟨c0, hc0, hpc⟩ := cls_inv hu
    subst hc0; subst huv
    refine ⟨by simp, ?_⟩
    intro c hc
    rcases List.mem_cons.mp (by simpa using hc) with rfl | hc
    · exact hpc
    · exact (star_cls_iff p v).mp hv c hc
  · rintro ⟨hne, h⟩
    cases w with
    | nil => exact absurd rfl hne
    | cons c cs =>
      have : RMatch (plus p) ([c] ++ cs) :=
        .cat (.cls (h c (by simp)))
          ((star_cls_iff p cs).mpr (fun x hx => h x (by simp [hx])))
      simpa using this

theorem litL_iff (l w : List Char) : RMatch (litL l) w ↔ w = l := by
  induction l generalizing w with
  | nil =>
    constructor
    · intro h; cases h; rfl
    · rintro rfl; exact .eps
  | cons c cs ih =>
    constructor
    · intro h
      obtain ⟨u, v, huv, hu, hv⟩ := cat_inv h
      obtain ⟨c0, hc0, hpc⟩ := cls_inv hu
      subst hc0; subst huv
      have hc : c0 = c := by simpa using hpc
      subst hc
      simp [ih v |>.mp hv]
    · rintro rfl
      have : RMatch (litL (c :: cs)) ([c] ++ cs) :=
        .cat (.cls (by simp)) ((ih cs).mpr rfl)
      simpa using this

/-! ## Team collection -/

theorem sizeTL_append (a b : List Team) : sizeTL (a ++ b) = sizeTL a + sizeTL b := by
  induction a with
  | nil => simp [sizeTL]
  | cons t ts ih => simp [sizeTL, ih]; omega

theorem Team.size_pos (t : Team) : 0 < Team.size t := by
  cases t with
  | mk s p m c => simp [Team.size]

theorem extendTeams_mem (fuel : Nat) (l : List Team) (h : sizeTL l ≤ fuel) (x : Team) :
    x ∈ extendTeams fuel l ↔ ∃ r ∈ l, TeamReach r x := by
  induction fuel generalizing l with
  | zero =>
    cases l with
    | nil => simp [extendTeams]
    | cons t ts =>
      exfalso
      have := Team.size_pos t
      simp [sizeTL] at h
      omega
  | succ fuel ih =>
    cases l with
    | nil => simp [extendTeams]
    | cons t ts =>
      have hsz : sizeTL (ts ++ t.children) ≤ fuel := by
        rw [sizeTL_append]
        cases t with
        | mk s p m c =>
          simp only [sizeTL, Team.size] at h
          simp only [Team.children]
          omega
      rw [extendTeams]
      constructor
      · intro hx
        rcases List.mem_cons.mp hx with rfl | hx
        · exact ⟨x, by simp, .refl x⟩
        · obtain ⟨r, hr, hreach⟩ := (ih _ hsz).mp hx
          rcases List.mem_append.mp hr with hr | hr
          · exact ⟨r, by simp [hr], hreach⟩
          · exact ⟨t, by simp, .child hr hreach⟩
      · rintro ⟨r, hr, hreach⟩
        rcases List.mem_cons.mp hr with rfl | hr
        · cases hreach with
          | refl => exact List.mem_cons_self _ _
          | child hc hrest =>
            exact List.mem_cons_of_mem _
              ((ih _ hsz).mpr ⟨_, List.mem_append.mpr (Or.inr hc), hrest⟩)
        · exact List.mem_cons_of_mem _
            ((ih _ hsz).mpr ⟨r, List.mem_append.mpr (Or.inl hr), hreach⟩)

/-- Membership in `get_valid_repo_teams`: exactly the teams reachable (at
any depth) from a directly-listed team with non-read-only permission. -/
theorem get_valid_repo_teams_mem (teams : List Team) (x : Team) :
    x ∈ get_valid_repo_teams teams ↔
      ∃ r ∈ teams, validPermission r = true ∧ TeamReach r x := by
  unfold get_valid_repo_teams
  rw [extendTeams_mem _ _ (Nat.le_refl _)]
  constructor
  · rintro ⟨r, hr, hreach⟩
    rcases List.mem_filter.mp hr with ⟨hmem, hperm⟩
    exact ⟨r, hmem, hperm, hreach⟩
  · rintro ⟨r, hmem, hperm, hreach⟩
    exact ⟨r, List.mem_filter.mpr ⟨hmem, hperm⟩, hreach⟩

/-! ## Failure messages are never the empty success string -/

theorem invalid_org_message_ne (line : Nat) (org : List Char) :
    invalid_org_message line org ≠ "" := by
  intro h
  have h2 := congrArg String.length h
  simp only [invalid_org_message, String.length_append] at h2
  rw [show ("Line ").length = 5 from rfl, show ("" : String).length = 0 from rfl] at h2
  omega

theorem too_many_members_message_ne (line : Nat) (team : List Char) (count : Nat) :
    too_many_members_message line team count ≠ "" := by
  intro h
  have h2 := congrArg String.length h
  simp only [too_many_members_message, String.length_append] at h2
  rw [show ("Line ").length = 5 from rfl, show ("" : String).length = 0 from rfl] at h2
  omega

theorem contractors_message_ne (line : Nat) (cm : List (List Char)) :
    contractors_message line cm ≠ "" := by
  intro h
  have h2 := congrArg String.length h
  simp only [contractors_message, String.length_append] at h2
  rw [show ("Line ").length = 5 from rfl, show ("" : String).length = 0 from rfl] at h2
  omega

theorem team_not_exist_message_ne (line : Nat) (org team : List Char) :
    team_not_exist_message line org team ≠ "" := by
  intro h
  have h2 := congrArg String.length h
  simp only [team_not_exist_message, String.length_append] at h2
  rw [show ("Line ").length = 5 from rfl, show ("" : String).length = 0 from rfl] at h2
  omega

/-! ## Claim C5 -/

/-- C5: per the claim (and the source's own comments on lines 164 and
171), an email resolves when a member login matches after stripping the
trailing `-sp` segment and trailing digits in each name component; so
`john.doe@sailpoint.com` should resolve against member `john-doe2-sp`.
The code returns `None` for it: the digit-stripping loop (lines 170-172)
rebinds its loop variable without modifying the list, so the digits are
never stripped.  The second conjunct shows the same email does resolve
once no digit is involved, isolating the divergence to the digit rule. -/
theorem claim5_digit_stripping_dead :
    get_username_from_email "john.doe@sailpoint.com".data ["john-doe2-sp".data] = none ∧
    get_username_from_email "john.doe@sailpoint.com".data ["john-doe-sp".data] =
      some "@john-doe-sp".data := by
  decide

/-! ## Claim C6 -/

/-- C6 counterexample: a line consisting of a path token (`*`) followed by
exactly one owner token does NOT halt parsing — `invalid_syntax_line`
comes back 0 and the line is kept (with the path stripped), because the
token-count check of line 88 runs before the path token is removed. -/
theorem claim6_counterexample :
    get_codeowners_only (get_codeowner_lines_dict "* @sailpoint/eng".data) =
      ([(1, ["@sailpoint/eng".data])], 0, true) := by
  decide

/-- C6 (amended): parsing halts at a candidate line, recording it as the
invalid-syntax line, exactly when fewer than two tokens are on the line
BEFORE the leading path token is stripped (i.e. the line has a single
token); a line with two or more tokens whose first token matches no
owner shape continues with the first token stripped. -/
theorem claim6_halt_rule :
    ∀ (key : Nat) (value : List Char) (rest : List (Nat × List Char))
      (acc : List (Nat × List (List Char))) (inv : Nat) (splat : Bool),
      (value.isEmpty || check_if_comment_or_header value || pyIsSpace value) = false →
      ((separate_line_codeowners value).length < 2 →
        gcoLoop ((key, value) :: rest) acc inv splat =
          (acc ++ [(key, separate_line_codeowners value)], key,
           if !splat then check_for_splat ((separate_line_codeowners value).headD [])
           else splat)) ∧
      (¬ (separate_line_codeowners value).length < 2 →
        check_codeowner_regex ((separate_line_codeowners value).headD [])
          (get_regex "first_element_regex") = none →
        gcoLoop ((key, value) :: rest) acc inv splat =
          gcoLoop rest (acc ++ [(key, (separate_line_codeowners value).drop 1)]) 0
            (if !splat then check_for_splat ((separate_line_codeowners value).headD [])
             else splat)) := by
  intro key value rest acc inv splat hskip
  constructor
  · intro hlen
    simp only [gcoLoop, hskip, Bool.false_eq_true, if_false, if_pos hlen]
  · intro hlen hfirst
    simp only [gcoLoop, hskip, Bool.false_eq_true, if_false, if_neg hlen, hfirst]

/-- C6 witness: a single-token line halts parsing at line 1. -/
theorem claim6_witness :
    gcoLoop [(1, "x".data)] [] 0 false = ([(1, ["x".data])], 1, false) := by
  have h := (claim6_halt_rule 1 "x".data [] [] 0 false (by decide)).1 (by decide)
  exact h

/-! ## Claim C8 -/

/-- C8 counterexample: the strict classifier does NOT classify
`@abc/a` — an `@org/team` token whose team slug is a single
character — as `team`; it matches no shape at all, because the strict
team pattern `^\@[a-z\-]+\/[^@]\S+$` requires one non-`@` character AND
at least one further non-whitespace character after the slash. -/
theorem claim8_counterexample :
    check_codeowner_regex "@abc/a".data (get_regex "codeowner_regex") = none := by
  decide

/-! ## Claim C9 -/

/-- C9: error handling of the external API reads.  Fetching the
contractors team continues the run with no team (`none`) exactly on a
404 not-found error; every other read failure — PR file listing,
branch root listing, org members, team members, repository teams, or the
CODEOWNERS content fetch inside the branch loop — terminates the run
immediately with exit status 1 (`Except.error 1`), producing no branch
result and no merge decision. -/
theorem claim9_api_error_handling :
    (∀ t, get_org_team (.ok t) = .ok (some t)) ∧
    (∀ e : GithubError, get_org_team (.error e) =
        if e.status = 404 then .ok none else .error 1) ∧
    (∀ e : GithubError, check_codeowners_file_pr (.error e) = .error 1) ∧
    (∀ e : GithubError, check_for_codeowners_file_branch (.error e) = .error 1) ∧
    (∀ e : GithubError, get_org_members (.error e) = .error 1) ∧
    (∀ e : GithubError, get_team_members (.error e) = .error 1) ∧
    (∀ e : GithubError, get_valid_repo_teams_api (.error e) = .error 1) ∧
    (∀ (w : World) (e : GithubError), run_branch_tail w (.error e) = .error 1) := by
  exact ⟨fun _ => rfl, fun _ => rfl, fun _ => rfl, fun _ => rfl, fun _ => rfl,
    fun _ => rfl, fun _ => rfl, fun _ _ => rfl⟩

/-! ## Claim C1 -/

/-- C1 counterexample: the decision combiner realises five pairwise
distinct textual outcomes (the five reachable rows of the decision
table), not four — so it cannot be the case that every output lies in a
set of four fixed outcomes. -/
theorem claim1_counterexample :
    combine_decision ⟨"b", false, false, false, ""⟩ ⟨"c", false, false, true, ""⟩ =
      (base_fail_message, 1) ∧
    combine_decision ⟨"b", true, true, false, ""⟩ ⟨"c", false, false, true, ""⟩ =
      (base_success_message, 0) ∧
    combine_decision ⟨"b", false, false, false, ""⟩ ⟨"c", false, false, false, ""⟩ =
      (fail_message, 1) ∧
    combine_decision ⟨"b", true, true, false, ""⟩ ⟨"c", false, false, false, ""⟩ =
      (cannot_merge_message, 1) ∧
    combine_decision ⟨"b", true, true, false, ""⟩ ⟨"c", true, true, false, ""⟩ =
      (valid_merge_message, 0) ∧
    base_fail_message ≠ base_success_message ∧ base_fail_message ≠ fail_message ∧
    base_fail_message ≠ cannot_merge_message ∧ base_fail_message ≠ valid_merge_message ∧
    base_success_message ≠ fail_message ∧ base_success_message ≠ cannot_merge_message ∧
    base_success_message ≠ valid_merge_message ∧ fail_message ≠ cannot_merge_message ∧
    fail_message ≠ valid_merge_message ∧ cannot_merge_message ≠ valid_merge_message := by
  decide

/-- C1 (amended): the decision combiner (`determine_branch_fail` then
`block_pr`) is a pure function of `(base.exists, base.validSyntax,
compare.skip, compare.exists, compare.validSyntax)`, always produces
one of the FIVE fixed outcomes of the decision table, and on each of the
table's five reachable rows produces exactly that row's outcome with the
matching exit code (0 for the allow rows, 1 for the block rows). -/
theorem claim1_decision_table :
    ∀ base compare : BranchState,
      (∀ base2 compare2 : BranchState,
        base.exists_ = base2.exists_ → base.validSyntax = base2.validSyntax →
        compare.skip = compare2.skip → compare.exists_ = compare2.exists_ →
        compare.validSyntax = compare2.validSyntax →
        combine_decision base compare = combine_decision base2 compare2) ∧
      combine_decision base compare ∈
        [(base_fail_message, 1), (base_success_message, 0), (fail_message, 1),
         (cannot_merge_message, 1), (valid_merge_message, 0)] ∧
      ((base.exists_ && base.validSyntax) = false → compare.skip = true →
        combine_decision base compare = (base_fail_message, 1)) ∧
      ((base.exists_ && base.validSyntax) = true → compare.skip = true →
        combine_decision base compare = (base_success_message, 0)) ∧
      ((base.exists_ && base.validSyntax) = false → compare.skip = false →
        (compare.exists_ && compare.validSyntax) = false →
        combine_decision base compare = (fail_message, 1)) ∧
      ((base.exists_ && base.validSyntax) = true → compare.skip = false →
        (compare.exists_ && compare.validSyntax) = false →
        combine_decision base compare = (cannot_merge_message, 1)) ∧
      ((base.exists_ && base.validSyntax) = true → compare.skip = false →
        (compare.exists_ && compare.validSyntax) = true →
        combine_decision base compare = (valid_merge_message, 0)) := by
  intro base compare
  obtain ⟨n1, be, bv, bs, bm⟩ := base
  obtain ⟨n2, ce, cv, cs, cm⟩ := compare
  refine ⟨?_, ?_, ?_, ?_, ?_, ?_, ?_⟩
  · intro base2 compare2 h1 h2 h3 h4 h5
    obtain ⟨m1, be2, bv2, bs2, bm2⟩ := base2
    obtain ⟨m2, ce2, cv2, cs2, cm2⟩ := compare2
    simp only [BranchState.exists_, BranchState.validSyntax, BranchState.skip] at h1 h2 h3 h4 h5
    subst h1; subst h2; subst h3; subst h4; subst h5
    rfl
  all_goals
    cases be <;> cases bv <;> cases ce <;> cases cv <;> cases cs <;>
      simp [combine_decision, determine_branch_fail, block_pr]

/-- C1 witness: instantiating the decision-table theorem on the first
table row. -/
theorem claim1_witness :
    combine_decision ⟨"b", false, true, false, ""⟩ ⟨"c", false, false, true, ""⟩ =
      (base_fail_message, 1) :=
  (claim1_decision_table ⟨"b", false, true, false, ""⟩ ⟨"c", false, false, true, ""⟩).2.2.1
    (by decide) (by decide)

/-! ## Claim C2 -/

/-- C2 counterexample: a complete run of the validator in which the base
branch has no CODEOWNERS file (so base is invalid) while the pull
request adds a valid one — the compare branch is not skipped and is
valid, the very combination the claim says never reaches the combiner;
the combiner then allows the merge with exit code 0. -/
theorem claim2_counterexample :
    run_validator pr_adds_valid_world = .ok
      (⟨"main", false, false, false, not_exist_message⟩,
       ⟨"feat", true, true, false, valid_owners_message⟩,
       valid_merge_message, 0) := by
  decide

/-- C2 (amended): the combination (base invalid, compare not skipped,
compare valid) IS reachable — it arises whenever the pull request adds a
valid CODEOWNERS file that the base branch lacks — and on it the
decision combiner produces the valid-merge outcome with exit code 0. -/
theorem claim2_base_invalid_compare_valid :
    (∃ w : World, ∃ r, run_validator w = .ok r ∧
      (r.1.exists_ && r.1.validSyntax) = false ∧ r.2.1.skip = false ∧
      (r.2.1.exists_ && r.2.1.validSyntax) = true ∧
      r.2.2.1 = valid_merge_message ∧ r.2.2.2 = 0) ∧
    (∀ b c : BranchState, (b.exists_ && b.validSyntax) = false → c.skip = false →
      (c.exists_ && c.validSyntax) = true →
      combine_decision b c = (valid_merge_message, 0)) := by
  constructor
  · refine ⟨pr_adds_valid_world,
      (⟨"main", false, false, false, not_exist_message⟩,
       ⟨"feat", true, true, false, valid_owners_message⟩,
       valid_merge_message, 0), by decide, by decide, by decide, by decide, by decide, by decide⟩
  · intro b c h1 h2 h3
    obtain ⟨n1, be, bv, bs, bm⟩ := b
    obtain ⟨n2, ce, cv, cs, cm⟩ := c
    simp only [BranchState.exists_, BranchState.validSyntax, BranchState.skip] at h1 h2 h3
    subst h2
    cases be <;> cases bv <;> cases ce <;> cases cv <;>
      simp_all [combine_decision, determine_branch_fail, block_pr]

/-- C2 witness: instantiating the combiner half of the amended claim on a
concrete pair of branch results. -/
theorem claim2_witness :
    combine_decision ⟨"x", true, false, false, ""⟩ ⟨"y", true, true, false, ""⟩ =
      (valid_merge_message, 0) :=
  claim2_base_invalid_compare_valid.2 ⟨"x", true, false, false, ""⟩ ⟨"y", true, true, false, ""⟩
    (by decide) (by decide) (by decide)

/-! ## Claims C3 and C7: the wildcard-line check -/

theorem mem_enumFrom_snd {α : Type} :
    ∀ {n k : Nat} {v : α} {xs : List α}, (k, v) ∈ List.enumFrom n xs → v ∈ xs := by
  intro n k v xs
  induction xs generalizing n with
  | nil => intro h; simp [List.enumFrom] at h
  | cons a l ih =>
    intro h
    rw [List.enumFrom] at h
    rcases List.mem_cons.mp h with h | h
    · injection h with h1 h2
      subst h2
      exact List.mem_cons_self _ _
    · exact List.mem_cons_of_mem _ (ih h)

/-- Values of the line dict are lines of the split content. -/
theorem dict_values_mem (content : List Char) (k : Nat) (v : List Char)
    (h : (k, v) ∈ get_codeowner_lines_dict content) : v ∈ splitOnChar '\n' content := by
  unfold get_codeowner_lines_dict at h
  exact (List.mem_filter.mp (mem_enumFrom_snd h)).1

/-- If no scanned line has `*` as its first token, the parse loop never
sets `splat_line`. -/
theorem gcoLoop_no_splat :
    ∀ (entries : List (Nat × List Char)) (acc : List (Nat × List (List Char))) (inv : Nat),
      (∀ e ∈ entries, (separate_line_codeowners e.2).headD [] ≠ ['*']) →
      (gcoLoop entries acc inv false).2.2 = false := by
  intro entries
  induction entries with
  | nil => intro acc inv _; rfl
  | cons e rest ih =>
    intro acc inv h
    obtain ⟨key, value⟩ := e
    have hval : (separate_line_codeowners value).headD [] ≠ ['*'] :=
      h (key, value) (List.mem_cons_self _ _)
    have hsplat : check_for_splat ((separate_line_codeowners value).headD []) = false := by
      simp only [check_for_splat, decide_eq_false_iff_not]
      exact hval
    have hrest : ∀ e ∈ rest, (separate_line_codeowners e.2).headD [] ≠ ['*'] :=
      fun x hx => h x (List.mem_cons_of_mem _ hx)
    by_cases hskip : (value.isEmpty || check_if_comment_or_header value || pyIsSpace value) = true
    · rw [gcoLoop, if_pos hskip]
      exact ih acc 0 hrest
    · rw [gcoLoop, if_neg hskip]
      simp only [Bool.not_false, if_true, hsplat]
      by_cases hlen : (separate_line_codeowners value).length < 2
      · rw [if_pos hlen]
      · rw [if_neg hlen]
        cases hfirst : check_codeowner_regex ((separate_line_codeowners value).headD [])
            (get_regex "first_element_regex") with
        | none => exact ih _ 0 hrest
        | some k => rfl

/-- A content with a non-empty line yields a non-empty line dict. -/
theorem lines_dict_ne (content : List Char) (h : has_nonempty_line content) :
    (get_codeowner_lines_dict content).isEmpty = false := by
  obtain ⟨l, hl, hne⟩ := h
  have hmem : l ∈ (splitOnChar '\n' content).filter (fun x => !x.isEmpty) := by
    refine List.mem_filter.mpr ⟨hl, ?_⟩
    simpa [List.isEmpty_iff] using hne
  have hpos : 0 < ((splitOnChar '\n' content).filter (fun x => !x.isEmpty)).length :=
    List.length_pos.mpr (List.ne_nil_of_mem hmem)
  unfold get_codeowner_lines_dict
  cases henum : List.enumFrom 1 ((splitOnChar '\n' content).filter (fun x => !x.isEmpty)) with
  | nil =>
    exfalso
    have hlen := congrArg List.length henum
    rw [List.enumFrom_length] at hlen
    simp only [List.length_nil] at hlen
    omega
  | cons a l2 => rfl

/-- The splat check of `main` (line 300) fires, with its exact message,
whenever the content has a non-empty line and no line whose first token
is `*` — regardless of everything else in the file. -/
theorem run_branch_tail_no_splat (w : World) (content : List Char)
    (h1 : has_nonempty_line content) (h2 : no_splat_first_token content) :
    run_branch_tail w (.ok content) = .ok (false, splat_required_message) := by
  have hdict := lines_dict_ne content h1
  have hsplat : (get_codeowners_only (get_codeowner_lines_dict content)).2.2 = false := by
    apply gcoLoop_no_splat
    intro e he
    exact h2 e.2 (dict_values_mem content e.1 e.2 he)
  simp only [run_branch_tail, get_codeowners_only] at *
  rw [hdict]
  simp only [Bool.false_eq_true, if_false, hsplat, Bool.not_false, if_true]

/-- C3 counterexample: completely empty content lacks a line whose first
token is `*`, yet its verdict message is the empty-file message, not the
required-wildcard message. -/
theorem claim3_counterexample :
    run_branch_tail pr_adds_valid_world (.ok []) = .ok (false, empty_file_message) ∧
    empty_file_message ≠ splat_required_message := by
  constructor
  · decide
  · decide

/-- C3 (amended): for every branch whose ownership-file content has at
least one non-empty line and lacks a line whose first token is exactly
`*`, the branch verdict is invalid with the requires-wildcard message,
regardless of the validity of any other line (in particular even when a
line also has a syntax error); completely empty content instead yields
the empty-file message. -/
theorem claim3_missing_splat_verdict :
    ∀ (w : World) (content : List Char), has_nonempty_line content →
      no_splat_first_token content →
      run_branch_tail w (.ok content) = .ok (false, splat_required_message) :=
  fun w content h1 h2 => run_branch_tail_no_splat w content h1 h2

/-- C3 witness: a single-token line (which is also a syntax error) still
gets the requires-wildcard message. -/
theorem claim3_witness :
    run_branch_tail pr_adds_valid_world (.ok "x".data) =
      .ok (false, splat_required_message) :=
  claim3_missing_splat_verdict pr_adds_valid_world "x".data (by decide) (by decide)

/-- C7 counterexample: a file with two lines whose first token is `*`,
all owners valid, is judged VALID — contradicting the claim that more
than one wildcard line is invalid like zero. -/
theorem claim7_counterexample :
    run_branch_tail pr_adds_valid_world (.ok "* @john-doe\n* @john-doe".data) =
      .ok (true, valid_owners_message) := by
  decide

/-- C7 (amended): the wildcard requirement is at-least-one, not
exactly-one: content with no line whose first token is `*` (and at least
one non-empty line) is invalid with the requires-wildcard message, while
a file with more than one wildcard line, all lines otherwise valid, is
valid. -/
theorem claim7_splat_at_least_one :
    (∀ (w : World) (content : List Char), has_nonempty_line content →
      no_splat_first_token content →
      run_branch_tail w (.ok content) = .ok (false, splat_required_message)) ∧
    run_branch_tail pr_adds_valid_world (.ok "* @john-doe\n* @john-doe".data) =
      .ok (true, valid_owners_message) :=
  ⟨fun w content h1 h2 => run_branch_tail_no_splat w content h1 h2, by decide⟩

/-- C7 witness: instantiating the absence half on concrete content. -/
theorem claim7_witness :
    run_branch_tail pr_adds_valid_world (.ok "foo".data) =
      .ok (false, splat_required_message) :=
  claim7_splat_at_least_one.1 pr_adds_valid_world "foo".data (by decide) (by decide)

/-! ## Claim C10: line numbering after empty-line removal -/

/-- An element surviving `filter` sits in the filtered list at the index
given by counting surviving elements before it. -/
theorem filter_getElem_take {α : Type} (P : α → Bool) :
    ∀ (l : List α) (p : Nat) (x : α),
      l[p]? = some x → P x = true →
      (l.filter P)[((l.take p).filter P).length]? = some x := by
  intro l
  induction l with
  | nil => intro p x h _; simp at h
  | cons a l ih =>
    intro p x h hP
    cases p with
    | zero =>
      simp only [List.getElem?_cons_zero, Option.some.injEq] at h
      subst h
      simp [List.filter_cons, hP]
    | succ p =>
      simp only [List.getElem?_cons_succ] at h
      by_cases ha : P a = true
      · simp only [List.take_succ_cons, List.filter_cons, ha, if_true,
          List.length_cons, List.getElem?_cons_succ]
        exact ih p x h hP
      · simp only [List.take_succ_cons, List.filter_cons, ha, Bool.false_eq_true, if_false]
        exact ih p x h hP

/-- C10: line numbers are assigned by numbering the non-empty lines from
1 after the empty lines are dropped: the physical line at 0-based
position `p` (non-empty) receives key `j + 1`, where `j` counts the
non-empty lines before it; and when some earlier physical line is empty,
that key is strictly smaller than the physical 1-based position `p + 1`. -/
theorem claim10_line_numbering :
    ∀ (content : List Char) (p : Nat) (l : List Char),
      (splitOnChar '\n' content)[p]? = some l → l ≠ [] →
      (∃ q, q < p ∧ (splitOnChar '\n' content)[q]? = some ([] : List Char)) →
      ((get_codeowner_lines_dict content)[(((splitOnChar '\n' content).take p).filter
          (fun x => !x.isEmpty)).length]? =
        some ((((splitOnChar '\n' content).take p).filter (fun x => !x.isEmpty)).length + 1, l)) ∧
      (((splitOnChar '\n' content).take p).filter (fun x => !x.isEmpty)).length + 1 < p + 1 := by
  intro content p l hp hne hq
  obtain ⟨q, hqp, hq0⟩ := hq
  have hPl : (!l.isEmpty) = true := by
    simp [List.isEmpty_iff]
    exact hne
  constructor
  · unfold get_codeowner_lines_dict
    rw [List.getElem?_enumFrom]
    rw [filter_getElem_take _ (splitOnChar '\n' content) p l hp hPl]
    simp [Nat.add_comm]
  · have hmem : ([] : List Char) ∈ (splitOnChar '\n' content).take p := by
      have h1 : ((splitOnChar '\n' content).take p)[q]? = some ([] : List Char) := by
        rw [List.getElem?_take_of_lt hqp]
        exact hq0
      exact List.getElem?_mem h1
    have hlt : (((splitOnChar '\n' content).take p).filter (fun x => !x.isEmpty)).length <
        ((splitOnChar '\n' content).take p).length :=
      List.length_filter_lt_length_iff_exists.mpr ⟨[], hmem, by simp⟩
    have htake : ((splitOnChar '\n' content).take p).length ≤ p := by
      simp [List.length_take]
    omega

/-- C10 witness: in `"\nfoo"` the line `foo` is physically line 2 but is
reported as line 1. -/
theorem claim10_witness :
    ((get_codeowner_lines_dict "\nfoo".data)[((((splitOnChar '\n' "\nfoo".data)).take 1).filter
        (fun x => !x.isEmpty)).length]? =
      some (((((splitOnChar '\n' "\nfoo".data)).take 1).filter
        (fun x => !x.isEmpty)).length + 1, "foo".data)) ∧
    ((((splitOnChar '\n' "\nfoo".data)).take 1).filter (fun x => !x.isEmpty)).length + 1 < 1 + 1 :=
  claim10_line_numbering "\nfoo".data 1 "foo".data (by decide) (by decide)
    ⟨0, by decide, by decide⟩

/-! ## Claim C4: team-token validity -/

/-- C4 counterexample: the team collection is not limited to one level of
nesting.  `g` is a grandchild (two levels below the push-permission team
`a`), so per the claim a token naming it should be invalid; the code
accepts it (empty failure message), because the worklist loop of
`get_valid_repo_teams` also expands the children it appends.  The second
conjunct shows `g` is not among the spec's direct-or-one-level teams. -/
theorem claim4_counterexample :
    validate_team_codeowner "sailpoint".data 1 "@sailpoint/g".data
        (get_valid_repo_teams [team_root]) none [] = "" ∧
    (∀ t ∈ spec_one_level_teams [team_root], t.slug ≠ "g".data) := by
  constructor
  · decide
  · decide

/-- C4 (amended): a team token is valid (empty failure message) iff its
org part matches the expected organization and some collected repository
team carries its slug with at most 50 members, sharing no member with
the contractors team and not being the contractors team itself (both
vacuous when no contractors team exists); and the collected repository
teams are exactly the teams with non-read-only permission together with
their descendants at ANY depth (not just one level).  Stated under the
hypothesis that collected team slugs are distinct (GitHub slugs are
unique per organization). -/
theorem claim4_team_validity :
    ∀ (org_login : List Char) (line : Nat) (codeowner : List Char)
      (teams : List Team) (contractors_team : Option Team)
      (contractor_members : List (List Char)),
      ((get_valid_repo_teams teams).map Team.slug).Nodup →
      ((validate_team_codeowner org_login line codeowner (get_valid_repo_teams teams)
          contractors_team contractor_members = "" ↔
        ((separate_into_org_team codeowner).1.drop 1 = org_login ∧
         ∃ t ∈ get_valid_repo_teams teams,
           t.slug = (separate_into_org_team codeowner).2 ∧
           t.members.length ≤ 50 ∧
           ∀ ct, contractors_team = some ct →
             compare_team_members t.members contractor_members = [] ∧
             (separate_into_org_team codeowner).2 ≠ ct.slug)) ∧
       (∀ x, x ∈ get_valid_repo_teams teams ↔
          ∃ r ∈ teams, validPermission r = true ∧ TeamReach r x)) := by
  intro org_login line codeowner teams contractors_team contractor_members hnd
  refine ⟨?_, get_valid_repo_teams_mem teams⟩
  simp only [validate_team_codeowner]
  by_cases horg : (separate_into_org_team codeowner).1.drop 1 = org_login
  case neg =>
    rw [if_pos horg]
    constructor
    · intro h; exact absurd h (invalid_org_message_ne _ _)
    · rintro ⟨h, _⟩; exact absurd h horg
  case pos =>
    rw [if_neg (not_not_intro horg)]
    cases hfind : (get_valid_repo_teams teams).find?
        (fun team => team.slug == (separate_into_org_team codeowner).2) with
    | none =>
      constructor
      · intro h; exact absurd h (team_not_exist_message_ne _ _ _)
      · rintro ⟨_, t, htmem, htslug, _⟩
        have hnone := List.find?_eq_none.mp hfind t htmem
        simp [htslug] at hnone
    | some t0 =>
      have ht0mem : t0 ∈ get_valid_repo_teams teams := List.mem_of_find?_eq_some hfind
      have ht0slug : t0.slug = (separate_into_org_team codeowner).2 := by
        have := List.find?_some hfind
        simpa using this
      have huniq : ∀ t ∈ get_valid_repo_teams teams,
          t.slug = (separate_into_org_team codeowner).2 → t = t0 := by
        intro t ht hts
        exact List.inj_on_of_nodup_map hnd ht ht0mem (by rw [hts, ht0slug])
      dsimp only
      by_cases hlen : t0.members.length > 50
      · rw [if_pos hlen]
        constructor
        · intro h; exact absurd h (too_many_members_message_ne _ _ _)
        · rintro ⟨_, t, htmem, htslug, hle, _⟩
          rw [huniq t htmem htslug] at hle
          omega
      · rw [if_neg hlen]
        cases contractors_team with
        | none =>
          constructor
          · intro _
            exact ⟨horg, t0, ht0mem, ht0slug, by omega, fun ct hct => by cases hct⟩
          · intro _; rfl
        | some ct =>
          dsimp only
          by_cases hcon : (!(compare_team_members t0.members contractor_members).isEmpty
              || (separate_into_org_team codeowner).2 == ct.slug) = true
          · rw [if_pos hcon]
            constructor
            · intro h; exact absurd h (contractors_message_ne _ _)
            · rintro ⟨_, t, htmem, htslug, hle, hcond⟩
              obtain ⟨hfil, hneq⟩ := hcond ct rfl
              rw [huniq t htmem htslug] at hfil
              rcases Bool.or_eq_true_iff.mp hcon with hcon1 | hcon2
              · rw [hfil] at hcon1
                simp at hcon1
              · exact absurd (by simpa using hcon2) hneq
          · rw [if_neg hcon]
            have hcon' : (!(compare_team_members t0.members contractor_members).isEmpty) = false
                ∧ ((separate_into_org_team codeowner).2 == ct.slug) = false := by
              constructor <;> simp_all
            constructor
            · intro _
              refine ⟨horg, t0, ht0mem, ht0slug, by omega, ?_⟩
              intro ct2 hct2
              injection hct2 with hcteq
              subst hcteq
              constructor
              · have h1 := hcon'.1
                simp only [Bool.not_eq_false'] at h1
                exact List.isEmpty_iff.mp h1
              · have h2 := hcon'.2
                simpa using h2
            · intro _; rfl

/-- C4 witness: instantiating the validity characterisation on a
one-team repository and the token `@sailpoint/eng`. -/
theorem claim4_witness :
    (validate_team_codeowner "sailpoint".data 1 "@sailpoint/eng".data
        (get_valid_repo_teams [Team.mk "eng".data "push" ["a".data] []]) none [] = "" ↔
      ((separate_into_org_team "@sailpoint/eng".data).1.drop 1 = "sailpoint".data ∧
       ∃ t ∈ get_valid_repo_teams [Team.mk "eng".data "push" ["a".data] []],
         t.slug = (separate_into_org_team "@sailpoint/eng".data).2 ∧
         t.members.length ≤ 50 ∧
         ∀ ct, (none : Option Team) = some ct →
           compare_team_members t.members [] = [] ∧
           (separate_into_org_team "@sailpoint/eng".data).2 ≠ ct.slug)) ∧
    (∀ x, x ∈ get_valid_repo_teams [Team.mk "eng".data "push" ["a".data] []] ↔
       ∃ r ∈ [Team.mk "eng".data "push" ["a".data] []],
         validPermission r = true ∧ TeamReach r x) :=
  claim4_team_validity "sailpoint".data 1 "@sailpoint/eng".data
    [Team.mk "eng".data "push" ["a".data] []] none []
    (by simp [get_valid_repo_teams, extendTeams, sizeTL, Team.size, validPermission,
      Team.permission])

/-- Shape of strict team-regex matches: `@`, then a non-empty run of
lowercase/hyphen characters, a `/`, one character that is not `@`, and a
non-empty run of non-whitespace characters. -/
theorem codeowner_team_match_iff (s : List Char) :
    RMatch codeowner_team s ↔
      ∃ org b rest, s = '@' :: (org ++ '/' :: b :: rest) ∧
        org ≠ [] ∧ (∀ c ∈ org, lowerHyphen c = true) ∧
        b ≠ '@' ∧ rest ≠ [] ∧ (∀ c ∈ rest, nonSpace c = true) := by
  constructor
  · intro h
    unfold codeowner_team at h
    obtain ⟨u1, v1, h1, hu1, hv1⟩ := cat_inv h
    unfold chr at hu1
    obtain ⟨c1, hc1, hp1⟩ := cls_inv hu1
    obtain ⟨u2, v2, h2, hu2, hv2⟩ := cat_inv hv1
    have hu2' := (plus_iff _ _).mp hu2
    obtain ⟨u3, v3, h3, hu3, hv3⟩ := cat_inv hv2
    unfold chr at hu3
    obtain ⟨c3, hc3, hp3⟩ := cls_inv hu3
    obtain ⟨u4, v4, h4, hu4, hv4⟩ := cat_inv hv3
    obtain ⟨c4, hc4, hp4⟩ := cls_inv hu4
    have hv4' := (plus_iff _ _).mp hv4
    subst hc1; subst hc3; subst hc4; subst h4; subst h3; subst h2; subst h1
    have e1 : c1 = '@' := by simpa using hp1
    have e3 : c3 = '/' := by simpa using hp3
    subst e1; subst e3
    refine ⟨u2, c4, v4, by simp, hu2'.1, hu2'.2, ?_, hv4'.1, hv4'.2⟩
    simpa [nonAt] using hp4
  · rintro ⟨org, b, rest, rfl, horg, hall, hb, hrest, hrs⟩
    have h1 : RMatch (chr '@') ['@'] := .cls (by simp [chr])
    have h2 : RMatch (plus lowerHyphen) org := (plus_iff _ _).mpr ⟨horg, hall⟩
    have h3 : RMatch (chr '/') ['/'] := .cls (by simp [chr])
    have h4 : RMatch (.cls nonAt) [b] := .cls (by simpa [nonAt] using hb)
    have h5 : RMatch (plus nonSpace) rest := (plus_iff _ _).mpr ⟨hrest, hrs⟩
    have hm : RMatch codeowner_team (['@'] ++ (org ++ (['/'] ++ ([b] ++ rest)))) :=
      .cat h1 (.cat h2 (.cat h3 (.cat h4 h5)))
    simpa using hm

/-- A strict email-regex match begins with a lowercase letter. -/
theorem codeowner_email_first (s : List Char) (h : RMatch codeowner_email s) :
    ∃ c rest, s = c :: rest ∧ lowerChar c = true := by
  unfold codeowner_email at h
  obtain ⟨u1, v1, h1, hu1, hv1⟩ := cat_inv h
  have hu1' := (plus_iff _ _).mp hu1
  obtain ⟨c, u1x, rfl⟩ : ∃ c u1x, u1 = c :: u1x := by
    cases u1 with
    | nil => exact absurd rfl hu1'.1
    | cons c u1x => exact ⟨c, u1x, rfl⟩
  exact ⟨c, u1x ++ v1, by simp [h1], hu1'.2 c (by simp)⟩

/-- C8 (amended): the strict classifier classifies a token as `team`
exactly when the whole token is `@`, a non-empty lowercase/hyphen org
slug, `/`, and a team slug consisting of one non-`@` character followed
by one or more non-whitespace characters — so the team slug needs at
least two characters, and a single-character slug does not classify as
`team` (full-string match only). -/
theorem claim8_team_shape :
    ∀ s : List Char,
      check_codeowner_regex s (get_regex "codeowner_regex") = some RegexKind.team ↔
        ∃ org b rest, s = '@' :: (org ++ '/' :: b :: rest) ∧
          org ≠ [] ∧ (∀ c ∈ org, lowerHyphen c = true) ∧
          b ≠ '@' ∧ rest ≠ [] ∧ (∀ c ∈ rest, nonSpace c = true) := by
  intro s
  have hreg : get_regex "codeowner_regex" =
      [(RegexKind.email, codeowner_email), (RegexKind.team, codeowner_team),
       (RegexKind.collaborator, codeowner_collaborator)] := rfl
  rw [hreg]
  simp only [check_codeowner_regex]
  by_cases he : rmatch codeowner_email s = true
  · rw [if_pos he]
    constructor
    · intro h; simp at h
    · rintro ⟨org, b, rest, hs, _⟩
      exfalso
      obtain ⟨c, r2, hcr, hc⟩ := codeowner_email_first _ ((rmatch_iff _ _).mp he)
      rw [hs] at hcr
      injection hcr with hc1 _
      rw [← hc1] at hc
      simp [lowerChar] at hc
  · rw [if_neg he]
    by_cases ht : rmatch codeowner_team s = true
    · rw [if_pos ht]
      constructor
      · intro _
        exact (codeowner_team_match_iff s).mp ((rmatch_iff _ _).mp ht)
      · intro _; rfl
    · rw [if_neg ht]
      constructor
      · intro h
        by_cases hc : rmatch codeowner_collaborator s = true
        · rw [if_pos hc] at h; simp at h
        · rw [if_neg hc] at h; simp at h
      · intro hshape
        exact absurd ((rmatch_iff _ _).mpr ((codeowner_team_match_iff s).mpr hshape)) ht

end Codeowners
